import Mathlib

/-!
Shallow embedding of the `slang` compiler backend (`src/backend/x86.rs`) and
the binary-operator display of the frontend (`src/frontend/past.rs`).

Rust `Vec::push` becomes appending at the end of a `List`; `Vec::insert(0, _)`
becomes `List.cons`; the `panic!` calls become `Option`-returning functions
(`none` models the fatal abort).  The process-global atomic label counter
`LABEL_COUNT` is modelled by explicit state passing: `labelNew` consumes the
counter value and returns the fresh label together with the updated counter,
exactly the effect of `fetch_add(1)`.
-/

set_option autoImplicit false

namespace Slang

namespace X86

/-- `Label` from `x86.rs`: `Generated(usize)` or `Given(&'static str)`. -/
inductive Label where
  | Generated : Nat → Label
  | Given : String → Label
  deriving DecidableEq, Repr

/-- `Label::new`: `Label::Generated(LABEL_COUNT.fetch_add(1, SeqCst))`.
The global atomic counter is threaded explicitly: `fetch_add` returns the old
value and stores the incremented one. -/
def labelNew (count : Nat) : Label × Nat :=
  (Label.Generated count, count + 1)

/-- The labels produced by `n` successive `Label::new` calls starting from
counter value `s` (the trace of one process run). -/
def labelRun (s : Nat) : Nat → List Label
  | 0 => []
  | n + 1 => (labelNew s).1 :: labelRun (labelNew s).2 n

/-- `impl fmt::Display for Label`: `.L{id}` or the raw name. -/
def Label.display : Label → String
  | .Generated l => ".L" ++ toString l
  | .Given s => s

/-- `Register` from `x86.rs`: the fixed enumeration of registers. -/
inductive Register where
  | Rax | Rbx | Rcx | Rdx | Rsp | Rbp | Rsi | Rdi | R8 | R9 | Rip
  deriving DecidableEq, Fintype, Repr

/-- `impl fmt::Display for Register`: `%` followed by the register name. -/
def Register.display : Register → String
  | .Rax => "%rax"
  | .Rbx => "%rbx"
  | .Rcx => "%rcx"
  | .Rdx => "%rdx"
  | .Rsp => "%rsp"
  | .Rbp => "%rbp"
  | .Rsi => "%rsi"
  | .Rdi => "%rdi"
  | .R8 => "%r8"
  | .R9 => "%r9"
  | .Rip => "%rip"

/-- `Location` from `x86.rs`: the four addressing modes. -/
inductive Location where
  | Constant : Int → Location
  | Register : Register → Location
  | Memory : Register → Int → Location
  | Relative : Register → Label → Location
  deriving DecidableEq, Repr

/-- `impl fmt::Display for Location`. -/
def Location.display : Location → String
  | .Constant c => "$" ++ toString c
  | .Register r => r.display
  | .Memory r o => toString o ++ "(" ++ r.display ++ ")"
  | .Relative r l => l.display ++ "(" ++ r.display ++ ")"

/-- `pub fn rax()`. -/
def rax : Location := Location.Register Register.Rax

/-- `pub fn rbx()`. -/
def rbx : Location := Location.Register Register.Rbx

/-- `pub fn rcx()`. -/
def rcx : Location := Location.Register Register.Rcx

/-- `pub fn rdx()`. -/
def rdx : Location := Location.Register Register.Rdx

/-- `pub fn rsp()`. -/
def rsp : Location := Location.Register Register.Rsp

/-- `pub fn rbp()`. -/
def rbp : Location := Location.Register Register.Rbp

/-- `pub fn rsi()`. -/
def rsi : Location := Location.Register Register.Rsi

/-- `pub fn rdi()`. -/
def rdi : Location := Location.Register Register.Rdi

/-- `pub fn r8()`. -/
def r8 : Location := Location.Register Register.R8

/-- `pub fn r9()`. -/
def r9 : Location := Location.Register Register.R9

/-- `pub fn rip()`. -/
def rip : Location := Location.Register Register.Rip

/-- `pub fn constant(c: i64)`. -/
def constant (c : Int) : Location := Location.Constant c

/-- `pub fn deref(loc, offset)`: `Memory(reg, offset)` when `loc` is a
register; the Rust code panics ("Attempted to use constant as memory
location") otherwise, modelled by `none`. -/
def deref (loc : Location) (offset : Int) : Option Location :=
  match loc with
  | Location.Register reg => some (Location.Memory reg offset)
  | _ => none

/-- `pub fn relative(loc, label)`: `Relative(reg, label)` when `loc` is a
register; panics otherwise, modelled by `none`. -/
def relative (loc : Location) (label : Label) : Option Location :=
  match loc with
  | Location.Register reg => some (Location.Relative reg label)
  | _ => none

/-- `Instruction` from `x86.rs`. -/
inductive Instruction where
  | Label : Label → Instruction
  | Push : Location → Instruction
  | Pop : Location → Instruction
  | Not : Location → Instruction
  | Neg : Location → Instruction
  | Add : Location → Location → Instruction
  | Sub : Location → Location → Instruction
  | Mul : Location → Location → Instruction
  | Xor : Location → Location → Instruction
  | Cmp : Location → Location → Instruction
  | Jmp : Label → Instruction
  | Je : Label → Instruction
  | Jge : Label → Instruction
  | Jne : Label → Instruction
  | Mov : Location → Location → Instruction
  | Lea : Location → Location → Instruction
  | Call : String → Instruction
  | Ret : Instruction
  deriving DecidableEq, Repr

/-- `impl fmt::Display for Instruction`: each `write!` format string is
translated literally (`{}` holes become the operands' `display`). -/
def Instruction.display : Instruction → String
  | .Label label => "\n" ++ label.display ++ ":"
  | .Push loc => "\n\tpushq " ++ loc.display
  | .Pop loc => "\n\tpopq " ++ loc.display
  | .Not loc => "\n\tnotq " ++ loc.display
  | .Neg loc => "\n\tnegq " ++ loc.display
  | .Add source target => "\n\taddq " ++ source.display ++ "," ++ target.display
  | .Sub source target => "\n\tsubq " ++ source.display ++ "," ++ target.display
  | .Mul source target => "\n\timulq " ++ source.display ++ "," ++ target.display
  | .Xor source target => "\n\txorq " ++ source.display ++ "," ++ target.display
  | .Cmp source target => "\n\tcmpq " ++ source.display ++ "," ++ target.display
  | .Jmp label => "\n\tjmp " ++ label.display
  | .Je label => "\n\tje " ++ label.display
  | .Jge label => "\n\tjge " ++ label.display
  | .Jne label => "\n\tjne " ++ label.display
  | .Mov source target => "\n\tmovq " ++ source.display ++ "," ++ target.display
  | .Lea source target => "\n\tleaq " ++ source.display ++ "," ++ target.display
  | .Call name => "\n\tcall " ++ name
  | .Ret => "\n\tret"

/-- `pub struct GeneratedCode(String)`. -/
structure GeneratedCode where
  text : String
  deriving DecidableEq, Repr

/-- `pub struct Code`. -/
structure Code where
  label : Label
  env : List (String × Location)
  allocated : Nat
  asm : List Instruction
  deriving DecidableEq, Repr

/-- `Code::new(label)`. -/
def Code.new (label : Label) : Code :=
  { label := label, env := [], allocated := 0, asm := [] }

/-- `Code::label`: appends a label-marker instruction (named `labelOp`
because the Lean field accessor `Code.label` takes the Rust method's name). -/
def Code.labelOp (c : Code) (label : Label) : Code :=
  { c with asm := c.asm ++ [Instruction.Label label] }

/-- `Code::push`. -/
def Code.push (c : Code) (loc : Location) : Code :=
  { c with asm := c.asm ++ [Instruction.Push loc] }

/-- `Code::pop`. -/
def Code.pop (c : Code) (loc : Location) : Code :=
  { c with asm := c.asm ++ [Instruction.Pop loc] }

/-- `Code::mov`. -/
def Code.mov (c : Code) (source target : Location) : Code :=
  { c with asm := c.asm ++ [Instruction.Mov source target] }

/-- `Code::lea`. -/
def Code.lea (c : Code) (source target : Location) : Code :=
  { c with asm := c.asm ++ [Instruction.Lea source target] }

/-- `Code::not`. -/
def Code.notOp (c : Code) (loc : Location) : Code :=
  { c with asm := c.asm ++ [Instruction.Not loc] }

/-- `Code::neg`. -/
def Code.neg (c : Code) (loc : Location) : Code :=
  { c with asm := c.asm ++ [Instruction.Neg loc] }

/-- `Code::add`. -/
def Code.add (c : Code) (source target : Location) : Code :=
  { c with asm := c.asm ++ [Instruction.Add source target] }

/-- `Code::sub`. -/
def Code.sub (c : Code) (source target : Location) : Code :=
  { c with asm := c.asm ++ [Instruction.Sub source target] }

/-- `Code::mul`. -/
def Code.mul (c : Code) (source target : Location) : Code :=
  { c with asm := c.asm ++ [Instruction.Mul source target] }

/-- `Code::xor`. -/
def Code.xor (c : Code) (source target : Location) : Code :=
  { c with asm := c.asm ++ [Instruction.Xor source target] }

/-- `Code::cmp`. -/
def Code.cmp (c : Code) (source target : Location) : Code :=
  { c with asm := c.asm ++ [Instruction.Cmp source target] }

/-- `Code::jmp`. -/
def Code.jmp (c : Code) (label : Label) : Code :=
  { c with asm := c.asm ++ [Instruction.Jmp label] }

/-- `Code::je`. -/
def Code.je (c : Code) (label : Label) : Code :=
  { c with asm := c.asm ++ [Instruction.Je label] }

/-- `Code::jge`. -/
def Code.jge (c : Code) (label : Label) : Code :=
  { c with asm := c.asm ++ [Instruction.Jge label] }

/-- `Code::jne`. -/
def Code.jne (c : Code) (label : Label) : Code :=
  { c with asm := c.asm ++ [Instruction.Jne label] }

/-- `Code::call`. -/
def Code.call (c : Code) (name : String) : Code :=
  { c with asm := c.asm ++ [Instruction.Call name] }

/-- `Code::allocate`: bumps `allocated` by 8, builds
`deref(rbp(), -(allocated as i64))` and records the binding.  `deref` on
`rbp()` always succeeds, so the `getD` default is never reached. -/
def Code.allocate (c : Code) (v : String) : Location × Code :=
  let allocated := c.allocated + 8
  let loc := (deref rbp (-(allocated : Int))).getD (Location.Constant 0)
  (loc, { c with allocated := allocated, env := c.env ++ [(v, loc)] })

/-- `Code::get_env`. -/
def Code.getEnv (c : Code) : List (String × Location) :=
  c.env

/-- `Code::get`: `for (envv, loc) in self.env.iter().rev() { if &v == envv
{ return *loc; } }` followed by a panic ("Attempted to get unbound
variable"), modelled by `none`. -/
def Code.get (c : Code) (v : String) : Option Location :=
  (c.env.reverse.find? (fun p => v == p.1)).map (fun p => p.2)

/-- `impl fmt::Display for Code`: writes every instruction in order. -/
def asmDisplay : List Instruction → String
  | [] => ""
  | i :: rest => i.display ++ asmDisplay rest

/-- The instruction sequence `Code::ret` renders: append the epilogue
(`mov(rbp(), rsp())`, `pop(rbx())`), then `insert(0, ...)` the reservation
(when `allocated > 0`), `Mov(rsp, rbp)`, `Push(rbp)` and the entry label,
then push `Ret` at the end. -/
def Code.retAsm (c : Code) : List Instruction :=
  let c1 := (c.mov rbp rsp).pop rbx
  let asm0 := if c1.allocated > 0
    then Instruction.Sub (constant (c1.allocated : Int)) rsp :: c1.asm
    else c1.asm
  let asm1 := Instruction.Mov rsp rbp :: asm0
  let asm2 := Instruction.Push rbp :: asm1
  let asm3 := Instruction.Label c1.label :: asm2
  asm3 ++ [Instruction.Ret]

/-- `Code::ret`: finalization; renders the completed sequence to text. -/
def Code.ret (c : Code) : GeneratedCode :=
  { text := asmDisplay c.retAsm }

/-- One driver call on the builder: each constructor stands for one of the
`Code` methods an external driver may invoke while building a function
body (`alloc` is `Code::allocate`; the others each append one
instruction). -/
inductive BuildOp where
  | label : Label → BuildOp
  | push : Location → BuildOp
  | pop : Location → BuildOp
  | mov : Location → Location → BuildOp
  | lea : Location → Location → BuildOp
  | notOp : Location → BuildOp
  | neg : Location → BuildOp
  | add : Location → Location → BuildOp
  | sub : Location → Location → BuildOp
  | mul : Location → Location → BuildOp
  | xor : Location → Location → BuildOp
  | cmp : Location → Location → BuildOp
  | jmp : Label → BuildOp
  | je : Label → BuildOp
  | jge : Label → BuildOp
  | jne : Label → BuildOp
  | call : String → BuildOp
  | alloc : String → BuildOp
  deriving DecidableEq, Repr

/-- Run one driver call against the builder, exactly as the corresponding
`Code` method does. -/
def Code.apply1 (c : Code) : BuildOp → Code
  | .label l => c.labelOp l
  | .push loc => c.push loc
  | .pop loc => c.pop loc
  | .mov s t => c.mov s t
  | .lea s t => c.lea s t
  | .notOp loc => c.notOp loc
  | .neg loc => c.neg loc
  | .add s t => c.add s t
  | .sub s t => c.sub s t
  | .mul s t => c.mul s t
  | .xor s t => c.xor s t
  | .cmp s t => c.cmp s t
  | .jmp l => c.jmp l
  | .je l => c.je l
  | .jge l => c.jge l
  | .jne l => c.jne l
  | .call name => c.call name
  | .alloc v => (c.allocate v).2

/-- Run a whole sequence of driver calls, first to last. -/
def Code.applyOps (c : Code) : List BuildOp → Code
  | [] => c
  | op :: ops => (c.apply1 op).applyOps ops

/-- The single instruction an op appends (`none` for `alloc`, which appends
no instruction). -/
def BuildOp.instr : BuildOp → Option Instruction
  | .label l => some (Instruction.Label l)
  | .push loc => some (Instruction.Push loc)
  | .pop loc => some (Instruction.Pop loc)
  | .mov s t => some (Instruction.Mov s t)
  | .lea s t => some (Instruction.Lea s t)
  | .notOp loc => some (Instruction.Not loc)
  | .neg loc => some (Instruction.Neg loc)
  | .add s t => some (Instruction.Add s t)
  | .sub s t => some (Instruction.Sub s t)
  | .mul s t => some (Instruction.Mul s t)
  | .xor s t => some (Instruction.Xor s t)
  | .cmp s t => some (Instruction.Cmp s t)
  | .jmp l => some (Instruction.Jmp l)
  | .je l => some (Instruction.Je l)
  | .jge l => some (Instruction.Jge l)
  | .jne l => some (Instruction.Jne l)
  | .call name => some (Instruction.Call name)
  | .alloc _ => none

/-- The body instructions a sequence of driver calls appends, in call order. -/
def opsInstrs (ops : List BuildOp) : List Instruction :=
  ops.filterMap BuildOp.instr

/-- How many of the ops are `allocate` calls. -/
def allocCount (ops : List BuildOp) : Nat :=
  ops.countP (fun op => match op with | BuildOp.alloc _ => true | _ => false)

/-- Recognizes the stack-reservation instruction shape `subq $c,%rsp` that
finalization inserts. -/
def isReserve : Instruction → Bool
  | Instruction.Sub (Location.Constant _) (Location.Register Register.Rsp) => true
  | _ => false

/-- Iterated `allocate`, one call per name, in order. -/
def allocateAll (c : Code) : List String → Code
  | [] => c
  | v :: vs => allocateAll (c.allocate v).2 vs

/-- Number of newline characters in a rendered string. -/
def newlineCount (s : String) : Nat := s.data.count '\n'

/-- A location whose rendered text contains no newline (true of every
location the Rust program can print, since register names, integers and
label ids never contain one). -/
def Location.nlFree (loc : Location) : Bool := loc.display.data.count '\n' == 0

/-- A label whose rendered text contains no newline. -/
def Label.nlFree (l : Label) : Bool := l.display.data.count '\n' == 0

/-- All operands of the instruction render newline-free. -/
def Instruction.nlFree : Instruction → Bool
  | .Label l => l.nlFree
  | .Push loc => loc.nlFree
  | .Pop loc => loc.nlFree
  | .Not loc => loc.nlFree
  | .Neg loc => loc.nlFree
  | .Add s t => s.nlFree && t.nlFree
  | .Sub s t => s.nlFree && t.nlFree
  | .Mul s t => s.nlFree && t.nlFree
  | .Xor s t => s.nlFree && t.nlFree
  | .Cmp s t => s.nlFree && t.nlFree
  | .Jmp l => l.nlFree
  | .Je l => l.nlFree
  | .Jge l => l.nlFree
  | .Jne l => l.nlFree
  | .Mov s t => s.nlFree && t.nlFree
  | .Lea s t => s.nlFree && t.nlFree
  | .Call name => name.data.count '\n' == 0
  | .Ret => true

/-- Is the instruction the label-marker variant? -/
def Instruction.isLabelMark : Instruction → Bool
  | .Label _ => true
  | _ => false

/-- The builder after binding `v1`, then `v2`, then `v1` again on a fresh
emitter (the shadowing scenario). -/
def shadowCode : Code :=
  ((((Code.new (Label.Given "f")).allocate "v1").2.allocate "v2").2.allocate "v1").2

end X86

namespace Past

/-- `BinOp` from `past.rs`. -/
inductive BinOp where
  | Add | Mul | Div | Sub | Lt | And | Or | Eq | Eqb | Eqi
  deriving DecidableEq, Repr

/-- `impl fmt::Display for BinOp`, transcribed verbatim from the source. -/
def BinOp.display : BinOp → String
  | .Add => "+"
  | .Mul => "*"
  | .Div => "/"
  | .Sub => "-"
  | .Lt => "<"
  | .And => "&&"
  | .Or => "+"
  | .Eq => "="
  | .Eqb => "eqi"
  | .Eqi => "eqb"

end Past

namespace X86

theorem isReserve_label (l : Label) : isReserve (Instruction.Label l) = false := rfl

theorem isReserve_push (loc : Location) : isReserve (Instruction.Push loc) = false := rfl

theorem isReserve_pop (loc : Location) : isReserve (Instruction.Pop loc) = false := rfl

theorem isReserve_mov (s t : Location) : isReserve (Instruction.Mov s t) = false := rfl

theorem isReserve_ret : isReserve Instruction.Ret = false := rfl

theorem isReserve_reserve (c : Int) :
    isReserve (Instruction.Sub (constant c) rsp) = true := rfl

theorem Code.retAsm_eq (c : Code) :
    c.retAsm =
      Instruction.Label c.label :: Instruction.Push rbp :: Instruction.Mov rsp rbp ::
        ((if c.allocated > 0 then [Instruction.Sub (constant (c.allocated : Int)) rsp] else []) ++
          (c.asm ++ [Instruction.Mov rbp rsp, Instruction.Pop rbx, Instruction.Ret])) := by
  by_cases h : c.allocated > 0 <;>
    simp [Code.retAsm, Code.mov, Code.pop, h]

theorem Code.new_label (l : Label) : (Code.new l).label = l := rfl

theorem Code.new_asm (l : Label) : (Code.new l).asm = [] := rfl

theorem Code.new_allocated (l : Label) : (Code.new l).allocated = 0 := rfl

theorem Code.apply1_label (c : Code) (op : BuildOp) : (c.apply1 op).label = c.label := by
  cases op <;> rfl

theorem Code.apply1_asm (c : Code) (op : BuildOp) :
    (c.apply1 op).asm = c.asm ++ op.instr.toList := by
  cases op <;>
    simp [Code.apply1, Code.labelOp, Code.push, Code.pop, Code.mov, Code.lea,
      Code.notOp, Code.neg, Code.add, Code.sub, Code.mul, Code.xor, Code.cmp,
      Code.jmp, Code.je, Code.jge, Code.jne, Code.call, Code.allocate, BuildOp.instr]

theorem Code.apply1_allocated (c : Code) (op : BuildOp) :
    (c.apply1 op).allocated =
      c.allocated + (match op with | BuildOp.alloc _ => 8 | _ => 0) := by
  cases op <;> rfl

theorem opsInstrs_cons (op : BuildOp) (ops : List BuildOp) :
    opsInstrs (op :: ops) = op.instr.toList ++ opsInstrs ops := by
  cases h : op.instr <;> simp [opsInstrs, List.filterMap_cons, h]

theorem allocCount_cons (op : BuildOp) (ops : List BuildOp) :
    allocCount (op :: ops) =
      (match op with | BuildOp.alloc _ => 1 | _ => 0) + allocCount ops := by
  cases op <;> simp [allocCount, List.countP_cons] <;> omega

theorem Code.applyOps_label (c : Code) (ops : List BuildOp) :
    (c.applyOps ops).label = c.label := by
  induction ops generalizing c with
  | nil => rfl
  | cons op ops ih => rw [Code.applyOps, ih, Code.apply1_label]

theorem Code.applyOps_asm (c : Code) (ops : List BuildOp) :
    (c.applyOps ops).asm = c.asm ++ opsInstrs ops := by
  induction ops generalizing c with
  | nil => simp [Code.applyOps, opsInstrs]
  | cons op ops ih =>
      rw [Code.applyOps, ih, Code.apply1_asm, opsInstrs_cons, List.append_assoc]

theorem Code.applyOps_allocated (c : Code) (ops : List BuildOp) :
    (c.applyOps ops).allocated = c.allocated + 8 * allocCount ops := by
  induction ops generalizing c with
  | nil => simp [Code.applyOps, allocCount]
  | cons op ops ih =>
      rw [Code.applyOps, ih, Code.apply1_allocated, allocCount_cons]
      cases op <;> simp <;> omega

theorem Code.allocate_fst (c : Code) (v : String) :
    (c.allocate v).1 = Location.Memory Register.Rbp (-((c.allocated + 8 : Nat) : Int)) := rfl

theorem Code.allocate_snd_allocated (c : Code) (v : String) :
    (c.allocate v).2.allocated = c.allocated + 8 := rfl

theorem Code.allocate_snd_env (c : Code) (v : String) :
    (c.allocate v).2.env = c.env ++ [(v, (c.allocate v).1)] := rfl

theorem allocateAll_allocated (vs : List String) (c : Code) :
    (allocateAll c vs).allocated = c.allocated + 8 * vs.length := by
  induction vs generalizing c with
  | nil => simp [allocateAll]
  | cons v vs ih =>
      rw [allocateAll, ih, Code.allocate_snd_allocated]
      simp
      omega

theorem asmDisplay_append (a b : List Instruction) :
    asmDisplay (a ++ b) = asmDisplay a ++ asmDisplay b := by
  induction a with
  | nil => simp [asmDisplay]
  | cons i a ih =>
      rw [List.cons_append, asmDisplay, asmDisplay, ih, String.append_assoc]

theorem labelRun_eq_map (n s : Nat) :
    labelRun s n = (List.range n).map (fun i => Label.Generated (s + i)) := by
  induction n generalizing s with
  | zero => rfl
  | succ n ih =>
      rw [labelRun, ih, List.range_succ_eq_map, List.map_cons, List.map_map]
      refine congrArg₂ List.cons (by simp [labelNew]) (List.map_congr_left ?_)
      intro i _
      simp only [labelNew, Function.comp_apply, Label.Generated.injEq]
      omega

/-- Claim C1: for every sequence of builder append calls, finalization
produces text whose instruction order is exactly: the entry label; push
base pointer; set base pointer = stack pointer; the optional
stack-reservation instruction; the appended body instructions in exactly
their original order; the epilogue (`Mov(rbp, rsp)` then `Pop(rbx)`); and
the return instruction last — and the finalized text is this sequence
rendered one instruction after another. -/
theorem ret_bracketing (lbl : Label) (ops : List BuildOp) :
    ((Code.new lbl).applyOps ops).retAsm =
      Instruction.Label lbl :: Instruction.Push rbp :: Instruction.Mov rsp rbp ::
        ((if ((Code.new lbl).applyOps ops).allocated > 0
            then [Instruction.Sub (constant (((Code.new lbl).applyOps ops).allocated : Int)) rsp]
            else []) ++
          (opsInstrs ops ++
            [Instruction.Mov rbp rsp, Instruction.Pop rbx, Instruction.Ret])) ∧
    ((Code.new lbl).applyOps ops).ret =
      { text := asmDisplay (((Code.new lbl).applyOps ops).retAsm) } := by
  refine ⟨?_, rfl⟩
  rw [Code.retAsm_eq, Code.applyOps_label, Code.applyOps_asm]
  simp [Code.new]

/-- Claim C2: a builder on whose body trace no reserve-shaped instruction
was appended yields, when it made zero `allocate` calls, finalized code
with no stack-reservation instruction at all; with `k ≥ 1` `allocate`
calls it yields exactly one reservation instruction, for `8 * k` bytes,
placed immediately after the push/set base-pointer pair and before the
first body instruction. -/
theorem reserve_conditionality (lbl : Label) (ops : List BuildOp)
    (hbody : (opsInstrs ops).countP (fun i => isReserve i) = 0) :
    (allocCount ops = 0 →
      ((Code.new lbl).applyOps ops).retAsm.countP (fun i => isReserve i) = 0) ∧
    (0 < allocCount ops →
      ((Code.new lbl).applyOps ops).retAsm.countP (fun i => isReserve i) = 1 ∧
      ((Code.new lbl).applyOps ops).retAsm =
        Instruction.Label lbl :: Instruction.Push rbp :: Instruction.Mov rsp rbp ::
          Instruction.Sub (constant ((8 * allocCount ops : Nat) : Int)) rsp ::
          (opsInstrs ops ++
            [Instruction.Mov rbp rsp, Instruction.Pop rbx, Instruction.Ret])) := by
  have hall : ((Code.new lbl).applyOps ops).allocated = 8 * allocCount ops := by
    rw [Code.applyOps_allocated]
    simp [Code.new]
  have heq := Code.retAsm_eq ((Code.new lbl).applyOps ops)
  rw [hall, Code.applyOps_label, Code.applyOps_asm, Code.new_label, Code.new_asm,
    List.nil_append] at heq
  constructor
  · intro h0
    have hneg : ¬ (8 * allocCount ops > 0) := by omega
    rw [heq, if_neg hneg]
    simp only [List.nil_append, List.countP_cons, List.countP_append, isReserve_label,
      isReserve_push, isReserve_pop, isReserve_mov, isReserve_ret, hbody]
    simp
  · intro hpos
    have hgt : 8 * allocCount ops > 0 := by omega
    rw [heq, if_pos hgt]
    refine ⟨?_, by simp⟩
    simp only [List.singleton_append, List.countP_cons, List.countP_append, isReserve_label,
      isReserve_push, isReserve_pop, isReserve_mov, isReserve_ret, isReserve_reserve, hbody]
    simp

/-- Claim C3: after `k - 1` allocations on a fresh builder, the `k`-th
`allocate` call bumps the allocated-byte counter by 8 (to `8 * k`),
returns the location `Memory(rbp, -8 * k)`, and appends the
`(name, location)` pair at the end of the environment. -/
theorem allocate_kth (lbl : Label) (names : List String) (v : String) :
    ((allocateAll (Code.new lbl) names).allocate v).1 =
        Location.Memory Register.Rbp (-((8 * (names.length + 1) : Nat) : Int)) ∧
    ((allocateAll (Code.new lbl) names).allocate v).2.allocated =
        (allocateAll (Code.new lbl) names).allocated + 8 ∧
    ((allocateAll (Code.new lbl) names).allocate v).2.allocated =
        8 * (names.length + 1) ∧
    ((allocateAll (Code.new lbl) names).allocate v).2.env =
        (allocateAll (Code.new lbl) names).env ++
          [(v, ((allocateAll (Code.new lbl) names).allocate v).1)] := by
  have hall : (allocateAll (Code.new lbl) names).allocated = 8 * names.length := by
    rw [allocateAll_allocated]
    simp [Code.new]
  have h2 : 8 * names.length + 8 = 8 * (names.length + 1) := by omega
  refine ⟨?_, rfl, ?_, rfl⟩
  · rw [Code.allocate_fst, hall, h2]
  · rw [Code.allocate_snd_allocated, hall, h2]

/-- Claim C4: `n` successive `Label::new` calls in one run return `n`
pairwise-distinct `Generated` identifiers, whatever the counter's starting
value. -/
theorem generated_labels_distinct (s n : Nat) :
    (labelRun s n).length = n ∧ (labelRun s n).Nodup := by
  constructor
  · rw [labelRun_eq_map]
    simp
  · rw [labelRun_eq_map]
    refine List.Nodup.map ?_ (List.nodup_range n)
    intro a b hab
    simp only [Label.Generated.injEq] at hab
    omega

theorem reserve_conditionality_witness :
    (opsInstrs [BuildOp.alloc "x", BuildOp.push rax]).countP (fun i => isReserve i) = 0 ∧
    0 < allocCount [BuildOp.alloc "x", BuildOp.push rax] ∧
    ((Code.new (Label.Given "f")).applyOps
        [BuildOp.alloc "x", BuildOp.push rax]).retAsm.countP (fun i => isReserve i) = 1 :=
  ⟨by decide, by decide,
    ((reserve_conditionality (Label.Given "f") [BuildOp.alloc "x", BuildOp.push rax]
      (by decide)).2 (by decide)).1⟩

/-- Claim C5: `get` scans the environment newest-binding-first and returns
the first match, so later bindings shadow earlier ones of the same name
(concretely, after binding `v1`, `v2`, `v1` the lookup of `v1` yields the
third slot, not the first), and it fails (`none`, the Rust panic) exactly
when no binding with the name exists. -/
theorem get_scans_newest_first (c : Code) (v : String) :
    (c.get v = none ↔ ∀ p ∈ c.env, p.1 ≠ v) ∧
    (∀ e1 loc e2, c.env = e1 ++ (v, loc) :: e2 → (∀ p ∈ e2, p.1 ≠ v) →
      c.get v = some loc) ∧
    shadowCode.get "v1" = some (Location.Memory Register.Rbp (-24)) ∧
    shadowCode.env.head? = some ("v1", Location.Memory Register.Rbp (-8)) := by
  refine ⟨?_, ?_, by decide, by decide⟩
  · rw [Code.get, Option.map_eq_none', List.find?_eq_none]
    constructor
    · intro h p hp heq
      exact h p (List.mem_reverse.mpr hp) (by simp [heq])
    · intro h p hp
      simp only [beq_iff_eq]
      intro heq
      exact h p (List.mem_reverse.mp hp) heq.symm
  · intro e1 loc e2 henv h2
    have hnone : (e2.reverse).find? (fun p => v == p.1) = none := by
      rw [List.find?_eq_none]
      intro x hx
      simp only [beq_iff_eq]
      intro heq
      exact h2 x (List.mem_reverse.mp hx) heq.symm
    rw [Code.get, henv, List.reverse_append, List.reverse_cons, List.append_assoc,
      List.find?_append, hnone]
    simp

theorem get_scans_newest_first_witness :
    shadowCode.env =
      [("v1", Location.Memory Register.Rbp (-8)),
       ("v2", Location.Memory Register.Rbp (-16))] ++
        ("v1", Location.Memory Register.Rbp (-24)) :: [] ∧
    shadowCode.get "v1" = some (Location.Memory Register.Rbp (-24)) :=
  ⟨by decide,
    (get_scans_newest_first shadowCode "v1").2.1
      [("v1", Location.Memory Register.Rbp (-8)),
       ("v2", Location.Memory Register.Rbp (-16))]
      (Location.Memory Register.Rbp (-24)) [] (by decide) (by decide)⟩

/-- Claim C6: `deref` and `relative` succeed exactly on `Register`
locations, returning the corresponding `Memory` (resp. `Relative`)
location, and fail fatally (`none`, the Rust panic) on every non-register
argument; in particular `deref(constant(5), 0)` fails fatally. -/
theorem deref_relative_register_only (r : Register) (o : Int) (lbl : Label)
    (loc : Location) (hloc : ∀ r', loc ≠ Location.Register r') :
    deref (Location.Register r) o = some (Location.Memory r o) ∧
    relative (Location.Register r) lbl = some (Location.Relative r lbl) ∧
    deref loc o = none ∧
    relative loc lbl = none ∧
    deref (constant 5) 0 = none := by
  refine ⟨rfl, rfl, ?_, ?_, rfl⟩
  · cases loc with
    | Register r' => exact absurd rfl (hloc r')
    | Constant c => rfl
    | Memory r' o' => rfl
    | Relative r' l' => rfl
  · cases loc with
    | Register r' => exact absurd rfl (hloc r')
    | Constant c => rfl
    | Memory r' o' => rfl
    | Relative r' l' => rfl

theorem deref_relative_register_only_witness :
    (∀ r', constant 5 ≠ Location.Register r') ∧
    deref (constant 5) 0 = none ∧
    relative (constant 5) (Label.Given "x") = none :=
  ⟨by decide,
    (deref_relative_register_only Register.Rax 0 (Label.Given "x") (constant 5)
      (by decide)).2.2.1,
    (deref_relative_register_only Register.Rax 0 (Label.Given "x") (constant 5)
      (by decide)).2.2.2.1⟩

/-- Claim C7 counterexample: the `Label` variant renders with a single
leading newline, not preceded by a blank line — a blank separator line
would make the rendered text start with two consecutive newline
characters, and it does not. -/
theorem label_display_no_blank_line :
    (Instruction.Label (Label.Given "main")).display = "\nmain:" ∧
    (Instruction.Label (Label.Given "main")).display.data.take 2 ≠ ['\n', '\n'] :=
  ⟨rfl, by decide⟩

/-- Claim C7 as amended: every instruction whose operands render
newline-free prints exactly one assembler line (exactly one newline
character, the leading one); the non-label variants are tab-indented and
newline-prefixed (their text starts with newline then tab), while the
`Label` variant renders as a newline-prefixed bare `name:` line with no
blank line before it. -/
theorem display_line_shape (i : Instruction) (h : i.nlFree = true) :
    newlineCount i.display = 1 ∧
    (∀ l, i = Instruction.Label l → i.display = "\n" ++ l.display ++ ":") ∧
    (i.isLabelMark = false → i.display.data.take 2 = ['\n', '\t']) := by
  cases i with
  | Label l =>
      simp only [Instruction.nlFree, Label.nlFree, beq_iff_eq] at h
      exact ⟨by simp [Instruction.display, newlineCount, List.count_append, h],
        fun l' hl' => by cases hl'; rfl, fun hf => Bool.noConfusion hf⟩
  | Push loc =>
      simp only [Instruction.nlFree, Location.nlFree, beq_iff_eq] at h
      exact ⟨by simp [Instruction.display, newlineCount, List.count_append, h],
        fun l hl => Instruction.noConfusion hl, fun _ => rfl⟩
  | Pop loc =>
      simp only [Instruction.nlFree, Location.nlFree, beq_iff_eq] at h
      exact ⟨by simp [Instruction.display, newlineCount, List.count_append, h],
        fun l hl => Instruction.noConfusion hl, fun _ => rfl⟩
  | Not loc =>
      simp only [Instruction.nlFree, Location.nlFree, beq_iff_eq] at h
      exact ⟨by simp [Instruction.display, newlineCount, List.count_append, h],
        fun l hl => Instruction.noConfusion hl, fun _ => rfl⟩
  | Neg loc =>
      simp only [Instruction.nlFree, Location.nlFree, beq_iff_eq] at h
      exact ⟨by simp [Instruction.display, newlineCount, List.count_append, h],
        fun l hl => Instruction.noConfusion hl, fun _ => rfl⟩
  | Add s t =>
      simp only [Instruction.nlFree, Location.nlFree, Bool.and_eq_true, beq_iff_eq] at h
      exact ⟨by simp [Instruction.display, newlineCount, List.count_append, h.1, h.2],
        fun l hl => Instruction.noConfusion hl, fun _ => rfl⟩
  | Sub s t =>
      simp only [Instruction.nlFree, Location.nlFree, Bool.and_eq_true, beq_iff_eq] at h
      exact ⟨by simp [Instruction.display, newlineCount, List.count_append, h.1, h.2],
        fun l hl => Instruction.noConfusion hl, fun _ => rfl⟩
  | Mul s t =>
      simp only [Instruction.nlFree, Location.nlFree, Bool.and_eq_true, beq_iff_eq] at h
      exact ⟨by simp [Instruction.display, newlineCount, List.count_append, h.1, h.2],
        fun l hl => Instruction.noConfusion hl, fun _ => rfl⟩
  | Xor s t =>
      simp only [Instruction.nlFree, Location.nlFree, Bool.and_eq_true, beq_iff_eq] at h
      exact ⟨by simp [Instruction.display, newlineCount, List.count_append, h.1, h.2],
        fun l hl => Instruction.noConfusion hl, fun _ => rfl⟩
  | Cmp s t =>
      simp only [Instruction.nlFree, Location.nlFree, Bool.and_eq_true, beq_iff_eq] at h
      exact ⟨by simp [Instruction.display, newlineCount, List.count_append, h.1, h.2],
        fun l hl => Instruction.noConfusion hl, fun _ => rfl⟩
  | Jmp l =>
      simp only [Instruction.nlFree, Label.nlFree, beq_iff_eq] at h
      exact ⟨by simp [Instruction.display, newlineCount, List.count_append, h],
        fun l' hl' => Instruction.noConfusion hl', fun _ => rfl⟩
  | Je l =>
      simp only [Instruction.nlFree, Label.nlFree, beq_iff_eq] at h
      exact ⟨by simp [Instruction.display, newlineCount, List.count_append, h],
        fun l' hl' => Instruction.noConfusion hl', fun _ => rfl⟩
  | Jge l =>
      simp only [Instruction.nlFree, Label.nlFree, beq_iff_eq] at h
      exact ⟨by simp [Instruction.display, newlineCount, List.count_append, h],
        fun l' hl' => Instruction.noConfusion hl', fun _ => rfl⟩
  | Jne l =>
      simp only [Instruction.nlFree, Label.nlFree, beq_iff_eq] at h
      exact ⟨by simp [Instruction.display, newlineCount, List.count_append, h],
        fun l' hl' => Instruction.noConfusion hl', fun _ => rfl⟩
  | Mov s t =>
      simp only [Instruction.nlFree, Location.nlFree, Bool.and_eq_true, beq_iff_eq] at h
      exact ⟨by simp [Instruction.display, newlineCount, List.count_append, h.1, h.2],
        fun l hl => Instruction.noConfusion hl, fun _ => rfl⟩
  | Lea s t =>
      simp only [Instruction.nlFree, Location.nlFree, Bool.and_eq_true, beq_iff_eq] at h
      exact ⟨by simp [Instruction.display, newlineCount, List.count_append, h.1, h.2],
        fun l hl => Instruction.noConfusion hl, fun _ => rfl⟩
  | Call name =>
      simp only [Instruction.nlFree, beq_iff_eq] at h
      exact ⟨by simp [Instruction.display, newlineCount, List.count_append, h],
        fun l hl => Instruction.noConfusion hl, fun _ => rfl⟩
  | Ret =>
      exact ⟨by decide, fun l hl => Instruction.noConfusion hl, fun _ => rfl⟩

theorem display_line_shape_witness :
    Instruction.nlFree (Instruction.Push rax) = true ∧
    newlineCount (Instruction.Push rax).display = 1 ∧
    (Instruction.Push rax).display.data.take 2 = ['\n', '\t'] :=
  ⟨by decide, (display_line_shape (Instruction.Push rax) (by decide)).1,
    (display_line_shape (Instruction.Push rax) (by decide)).2.2 (by decide)⟩

/-- Claim C8 counterexample: the `Register` enumeration does not have ten
entries. -/
theorem register_count_not_ten : ¬ (Fintype.card Register = 10) := by decide

/-- Claim C8 as amended: `Register` is a fixed enumeration of exactly
eleven entries, the instruction-pointer register among them. -/
theorem register_count_eleven :
    Fintype.card Register = 11 ∧ Register.Rip ∈ (Finset.univ : Finset Register) := by
  decide

/-- Claim C10: for every finalized builder, the prologue pushes `%rbp`
while the epilogue pops `%rbx` — the finalized text always ends with
`movq %rbp,%rsp`, `popq %rbx`, `ret`, and the popped register differs
from the one the prologue saved. -/
theorem epilogue_pops_unsaved_register (c : Code) :
    c.retAsm =
      (Instruction.Label c.label :: Instruction.Push rbp :: Instruction.Mov rsp rbp ::
        ((if c.allocated > 0 then [Instruction.Sub (constant (c.allocated : Int)) rsp] else []) ++
          c.asm)) ++ [Instruction.Mov rbp rsp, Instruction.Pop rbx, Instruction.Ret] ∧
    (c.ret).text =
      asmDisplay (Instruction.Label c.label :: Instruction.Push rbp :: Instruction.Mov rsp rbp ::
        ((if c.allocated > 0 then [Instruction.Sub (constant (c.allocated : Int)) rsp] else []) ++
          c.asm)) ++ "\n\tmovq %rbp,%rsp\n\tpopq %rbx\n\tret" ∧
    Register.Rbx ≠ Register.Rbp := by
  have hsplit : c.retAsm =
      (Instruction.Label c.label :: Instruction.Push rbp :: Instruction.Mov rsp rbp ::
        ((if c.allocated > 0 then [Instruction.Sub (constant (c.allocated : Int)) rsp] else []) ++
          c.asm)) ++ [Instruction.Mov rbp rsp, Instruction.Pop rbx, Instruction.Ret] := by
    rw [Code.retAsm_eq]
    simp [List.append_assoc]
  refine ⟨hsplit, ?_, by decide⟩
  show asmDisplay c.retAsm = _
  rw [hsplit, asmDisplay_append]
  congr 1

end X86

namespace Past

/-- Claim C9: in the binary-operator display, `Or` prints the same symbol
`+` as `Add` although the two operators are distinct, and the distinct
operators `Eqb` and `Eqi` print each other's names (`eqi` and `eqb`
respectively): their printed forms are swapped. -/
theorem binop_display_collision_and_swap :
    BinOp.display BinOp.Or = BinOp.display BinOp.Add ∧
    BinOp.display BinOp.Or = "+" ∧
    BinOp.Or ≠ BinOp.Add ∧
    BinOp.display BinOp.Eqb = "eqi" ∧
    BinOp.display BinOp.Eqi = "eqb" ∧
    BinOp.Eqb ≠ BinOp.Eqi := by
  refine ⟨rfl, rfl, by decide, rfl, rfl, by decide⟩

end Past

end Slang
